import Mathlib

/-
Verification of the scout-ai tourist-guide application.

The definitions below are a shallow embedding of the TypeScript source:
pure helpers become Lean functions, the browser and vendor-SDK boundaries
(network responses, JSON.parse, localStorage, Math.random) become explicit
parameters, thrown exceptions become `Except.error`, and JavaScript numbers
are modelled as `Nat`, `Int` and `Rat`.
-/

namespace ScoutAI

/-- Characters treated as whitespace by the JavaScript string routines that the
source relies on (the common members of the regex whitespace class and of
String.prototype.trim). -/
def jsWhitespace (c : Char) : Bool :=
  c = ' ' || c = '\t' || c = '\n' || c = '\r' || c = '\x0b' || c = '\x0c' ||
  c = '\u00A0' || c = '\uFEFF' || c = '\u2028' || c = '\u2029' || c = '\u3000'

/-- Model of JavaScript String.prototype.trim: drop leading and trailing
whitespace characters. -/
def jsTrim (s : String) : String :=
  String.mk (((s.toList.dropWhile jsWhitespace).reverse.dropWhile jsWhitespace).reverse)

/-- Whether the first character list starts with the second one. -/
def listStarts : List Char → List Char → Bool
  | _, [] => true
  | [], _ :: _ => false
  | a :: as, b :: bs => a == b && listStarts as bs

/-- Whether the second character list occurs contiguously inside the first. -/
def listHasSub : List Char → List Char → Bool
  | [], needle => needle.isEmpty
  | a :: as, needle => listStarts (a :: as) needle || listHasSub as needle

/-- Model of JavaScript String.prototype.includes: substring containment. -/
def strHasSub (hay needle : String) : Bool :=
  listHasSub hay.toList needle.toList

/-- Model of JavaScript String.prototype.startsWith. -/
def strStarts (s pre : String) : Bool :=
  listStarts s.toList pre.toList

/-- Model of JavaScript String.prototype.endsWith. -/
def strEnds (s suf : String) : Bool :=
  listStarts s.toList.reverse suf.toList.reverse

/-- Drop the first n characters of a string. -/
def strDrop (s : String) (n : Nat) : String :=
  String.mk (s.toList.drop n)

/-- Drop the last n characters of a string. -/
def strDropRight (s : String) (n : Nat) : String :=
  String.mk (s.toList.take (s.toList.length - n))

/-- Drop the longest run of characters satisfying p from the front. -/
def strDropWhile (s : String) (p : Char → Bool) : String :=
  String.mk (s.toList.dropWhile p)

/-- Whether a string is empty. -/
def strIsEmpty (s : String) : Bool :=
  s.toList.isEmpty

/-- Model of JavaScript String.prototype.toLowerCase on the ASCII range. -/
def strToLower (s : String) : String :=
  String.mk (s.toList.map Char.toLower)

/-- The transient-error test of callGeminiWithRetry (geminiService): the error
message contains 429, 503, UNAVAILABLE, RESOURCE_EXHAUSTED, or, lower-cased,
the phrase model is overloaded. -/
def isTransientError (errorMessage : String) : Bool :=
  strHasSub errorMessage "429" ||
  strHasSub errorMessage "503" ||
  strHasSub errorMessage "UNAVAILABLE" ||
  strHasSub (strToLower errorMessage) "model is overloaded" ||
  strHasSub errorMessage "RESOURCE_EXHAUSTED"

/-- Observable trace of one run of the retry wrapper: the final outcome, how
many times the wrapped api call was invoked, and the list of back-off delays
(in milliseconds) slept between attempts. -/
structure RetryTrace (α : Type) where
  result : Except String α
  calls : Nat
  delays : List ℚ

/-- The while-loop of callGeminiWithRetry. `fuel` is the number of attempts
still allowed (maxRetries minus the attempts already made) and `attempt` is the
0-based index of the next attempt; the JavaScript variable `attempt` equals our
`attempt + 1` right after the increment that follows a failure. The outcome of
the n-th invocation of the wrapped call is `apiCall n`; the value
Math.random() * 1000 drawn before the n-th retry is `jitter n`. -/
def retryGo (apiCall : Nat → Except String α) (jitter : Nat → ℚ) :
    Nat → Nat → RetryTrace α
  | 0, _ => ⟨Except.error "API call failed after exhausting all retries.", 0, []⟩
  | fuel + 1, attempt =>
    match apiCall attempt with
    | Except.ok v => ⟨Except.ok v, 1, []⟩
    | Except.error msg =>
      if isTransientError msg = true ∧ 0 < fuel then
        let rest := retryGo apiCall jitter fuel (attempt + 1)
        ⟨rest.result, rest.calls + 1,
          (2 ^ (attempt + 1) * 1000 + jitter (attempt + 1)) :: rest.delays⟩
      else
        ⟨Except.error msg, 1, []⟩

/-- callGeminiWithRetry (geminiService): final outcome of the retry loop. -/
def callGeminiWithRetry (apiCall : Nat → Except String α) (jitter : Nat → ℚ)
    (maxRetries : Nat := 3) : Except String α :=
  (retryGo apiCall jitter maxRetries 0).result

/-- Number of times callGeminiWithRetry invokes the wrapped api call. -/
def retryCalls (apiCall : Nat → Except String α) (jitter : Nat → ℚ)
    (maxRetries : Nat := 3) : Nat :=
  (retryGo apiCall jitter maxRetries 0).calls

/-- The successive back-off delays slept by callGeminiWithRetry. -/
def retryDelays (apiCall : Nat → Except String α) (jitter : Nat → ℚ)
    (maxRetries : Nat := 3) : List ℚ :=
  (retryGo apiCall jitter maxRetries 0).delays

/-- Reinterpretation of two consecutive bytes as one little-endian signed
16-bit integer, as done by the Int16Array view in decodeAudioData. -/
def toInt16 (lo hi : Nat) : Int :=
  let u : Nat := lo + 256 * hi
  if u < 32768 then (u : Int) else (u : Int) - 65536

/-- The Int16Array view on the raw byte buffer: consecutive byte pairs become
signed 16-bit samples (a trailing odd byte cannot occur for 16-bit PCM). -/
def bytesToInt16 : List Nat → List Int
  | lo :: hi :: rest => toInt16 lo hi :: bytesToInt16 rest
  | _ => []

/-- decodeAudioData (audio utils): interpret the raw bytes as interleaved
16-bit signed PCM and produce, per channel, the list of samples normalized to
floating-point values by dividing by 32768.0. The result models the
AudioBuffer: one list of `frameCount` samples per channel. -/
def decodeAudioData (data : List Nat) (numChannels : Nat) : List (List ℚ) :=
  let dataInt16 := bytesToInt16 data
  let frameCount := dataInt16.length / numChannels
  (List.range numChannels).map fun channel =>
    (List.range frameCount).map fun i =>
      ((dataInt16.getD (i * numChannels + channel) 0 : Int) : ℚ) / 32768

/-- The record identifyLandmark resolves with. -/
structure LandmarkResult where
  name : String
  history : String
  audioData : String
deriving DecidableEq

/-- identifyLandmark (geminiService), as a function of the three model
responses: the text of the identification response, the text of the history
response, and the inline audio data carried (or not) by the first part of the
first candidate of the text-to-speech response. Thrown errors become
`Except.error`. -/
def identifyLandmark (identText histText : String) (audioInline : Option String) :
    Except String LandmarkResult :=
  let landmarkName := jsTrim identText
  if strHasSub (strToLower landmarkName) "unknown landmark" = true then
    Except.error "I couldn\x27t identify a landmark in this photo. Please try another one."
  else
    let historyText := jsTrim histText
    match audioInline with
    | none => Except.error "Failed to generate audio data."
    | some audioData => Except.ok ⟨landmarkName, historyText, audioData⟩

/-- JavaScript `a || b` for a possibly-missing string `a`: the default is used
when the field is missing or is the empty string (both are falsy). -/
def jsOrStr : Option String → String → String
  | some s, dflt => if strIsEmpty s = true then dflt else s
  | none, dflt => dflt

/-- JavaScript `a || undefined` for a possibly-missing string field. -/
def jsOrUndef : Option String → Option String
  | some s => if strIsEmpty s = true then none else some s
  | none => none

/-- A raw place entry as stored in the Firestore city document: every field may
be missing. -/
structure RawPlace where
  name : Option String
  description : Option String
  formatted_address : Option String
  types : Option (List String)
  image_url : Option String
deriving DecidableEq

/-- The NearbyPlace record built by getTopPlaces. -/
structure TopPlace where
  name : String
  description : String
  formatted_address : String
  category : String
  mapUri : String
  imageUrl : Option String
  audioData : Option String
deriving DecidableEq

/-- JavaScript `types[0] || "Landmark"` for a present types array: the first
element when it exists and is non-empty, otherwise the default. -/
def jsTypesHead : List String → String
  | [] => "Landmark"
  | t :: _ => if strIsEmpty t = true then "Landmark" else t

/-- JavaScript Array.prototype.map where the callback may throw: the first
thrown error aborts the whole map. -/
def mapExcept (f : α → Except ε β) : List α → Except ε (List β)
  | [] => Except.ok []
  | a :: as =>
    match f a with
    | Except.error e => Except.error e
    | Except.ok b =>
      match mapExcept f as with
      | Except.error e => Except.error e
      | Except.ok bs => Except.ok (b :: bs)

/-- The per-entry mapping inside getTopPlaces. Reading `place.types[0]` when
the entry has no types field throws a TypeError in JavaScript; that is the
`Except.error` case. `enc` models encodeURIComponent. -/
def topPlaceOfRaw (enc : String → String) (place : RawPlace) : Except String TopPlace :=
  match place.types with
  | none => Except.error "TypeError"
  | some types =>
    Except.ok
      { name := jsOrStr place.name "Unknown Place"
        description := jsOrStr place.description ""
        formatted_address := jsOrStr place.formatted_address ""
        category := jsTypesHead types
        mapUri := "https://www.google.com/maps?q=" ++ enc (jsOrStr place.name "")
        imageUrl := jsOrUndef place.image_url
        audioData := none }

/-- The places field of a city document: either a Firestore array or an object
whose values (in order) are taken via Object.values. -/
inductive PlacesField where
  | fieldArray (entries : List RawPlace)
  | fieldObject (entries : List RawPlace)
deriving DecidableEq

/-- The entry list that getTopPlaces iterates over, for either shape. -/
def PlacesField.entriesList : PlacesField → List RawPlace
  | fieldArray entries => entries
  | fieldObject entries => entries

/-- getTopPlaces (firestore service), as a function of whether the requested
city document exists and of its places field (`none` models a missing or falsy
field). -/
def getTopPlaces (enc : String → String) (docExists : Bool)
    (placesField : Option PlacesField) : Except String (List TopPlace) :=
  if docExists = false then Except.ok []
  else
    match placesField with
    | none => Except.ok []
    | some pf => mapExcept (topPlaceOfRaw enc) pf.entriesList

/-- A nearby place as returned by findNearbyPlaces (before image or audio
enrichment). -/
structure NPBase where
  name : String
  description : String
  category : String
  mapUri : String
deriving DecidableEq

/-- A nearby place as displayed by the NearbyPlaces view. -/
structure NPFull where
  name : String
  description : String
  category : String
  mapUri : String
  imageUrl : Option String
  audioData : Option String
deriving DecidableEq

/-- The module-level sessionCache of the NearbyPlaces view. -/
structure SessionCache where
  places : List NPFull
  language : String
  hasMore : Bool
  lat : ℚ
  lon : ℚ
deriving DecidableEq

/-- The location record persisted to local storage by saveLocation. -/
structure StoredLocation where
  lat : ℚ
  lon : ℚ
  timestamp : Int
deriving DecidableEq

/-- The slice of NearbyPlaces component state that the claims talk about. -/
structure NPState where
  places : Option (List NPFull)
  hasMore : Bool
  coordinates : Option (ℚ × ℚ)
  error : Option String
  loadingIdle : Bool
deriving DecidableEq

/-- The list built by fetchAndDisplayPlaces after image generation: each
fetched place gets the image result with the same index and no audio. -/
def buildFinalPlaces (fetched : List NPBase) (images : List (Option String)) : List NPFull :=
  (List.range fetched.length).map fun i =>
    let p := fetched.getD i ⟨"", "", "", ""⟩
    ⟨p.name, p.description, p.category, p.mapUri, images.getD i none, none⟩

/-- fetchAndDisplayPlaces (NearbyPlaces view), as a function of the outcome of
findNearbyPlaces and of the per-place image-generation results. Returns the new
component state, the new sessionCache, and how many generateImageForPlace calls
were made. -/
def fetchAndDisplayPlaces (language : String) (lat lon : ℚ)
    (cache : Option SessionCache) (st : NPState)
    (fetchResult : Except String (List NPBase)) (images : List (Option String))
    (errNearbyMsg : String) :
    NPState × Option SessionCache × Nat :=
  match fetchResult with
  | Except.error msg =>
    ({ st with error := some (errNearbyMsg ++ " " ++ msg), loadingIdle := true }, cache, 0)
  | Except.ok fetched =>
    if fetched.isEmpty then
      ({ st with
          places := some []
          error := some errNearbyMsg
          loadingIdle := true
          hasMore := false }, cache, 0)
    else
      let finalPlaces := buildFinalPlaces fetched images
      ({ st with places := some finalPlaces, loadingIdle := true },
       some ⟨finalPlaces, language, true, lat, lon⟩,
       fetched.length)

/-- The branch of the mount/language effect that runs when the cache is not
used: with a valid stored location it resets the view and fetches, otherwise it
does nothing. The Bool records whether findNearbyPlaces was called. -/
def effectFetchPath (cache : Option SessionCache) (language : String)
    (validLoc : Option StoredLocation) (st : NPState)
    (fetchResult : Except String (List NPBase)) (images : List (Option String))
    (errNearbyMsg : String) :
    NPState × Option SessionCache × Bool × Nat :=
  match validLoc with
  | none => (st, cache, false, 0)
  | some loc =>
    let st2 : NPState := { st with
      places := none
      error := none
      hasMore := true
      coordinates := some (loc.lat, loc.lon)
      loadingIdle := false }
    let r := fetchAndDisplayPlaces language loc.lat loc.lon cache st2 fetchResult images errNearbyMsg
    (r.1, r.2.1, true, r.2.2)

/-- The mount/language effect of the NearbyPlaces view: when the module-level
sessionCache is non-null and stores the current language, the view state is
restored from it and no api call is made; otherwise the fetch path runs. -/
def mountLanguageEffect (cache : Option SessionCache) (language : String)
    (validLoc : Option StoredLocation) (st : NPState)
    (fetchResult : Except String (List NPBase)) (images : List (Option String))
    (errNearbyMsg : String) :
    NPState × Option SessionCache × Bool × Nat :=
  match cache with
  | some c =>
    if c.language = language then
      ({ st with
          places := some c.places
          hasMore := c.hasMore
          coordinates := some (c.lat, c.lon)
          loadingIdle := true
          error := none },
       some c, false, 0)
    else
      effectFetchPath cache language validLoc st fetchResult images errNearbyMsg
  | none => effectFetchPath cache language validLoc st fetchResult images errNearbyMsg

/-- The maps data a grounding chunk may carry. -/
structure MapsInfo where
  title : String
  uri : String
deriving DecidableEq

/-- A grounding chunk of the findNearbyPlaces response. -/
structure GroundingChunk where
  maps : Option MapsInfo
deriving DecidableEq

/-- An element of the JSON array parsed from the model reply: every key may be
missing (a null element behaves like one with all keys missing). -/
structure ParsedPlace where
  name : Option String
  description : Option String
  category : Option String
deriving DecidableEq

/-- A place returned by findNearbyPlaces: the parsed entry spread together with
the mapUri. -/
structure FoundPlace where
  name : Option String
  description : Option String
  category : Option String
  mapUri : String
deriving DecidableEq

/-- The two replace calls of findNearbyPlaces: strip one leading markdown code
fence (with an optional json tag and trailing whitespace) and one trailing
fence. -/
def stripFences (s : String) : String :=
  let s1 :=
    if strStarts s "```json" = true then strDropWhile (strDrop s 7) jsWhitespace
    else if strStarts s "```" = true then strDropWhile (strDrop s 3) jsWhitespace
    else s
  if strEnds s1 "```" = true then strDropRight s1 3 else s1

/-- The cleaned reply text of findNearbyPlaces: trim, strip fences, trim. -/
def cleanResponseText (rawText : String) : String :=
  jsTrim (stripFences (jsTrim rawText))

/-- The groundingChunks.find callback of findNearbyPlaces: the first chunk
whose maps title contains the place name case-insensitively. Evaluating the
callback on a chunk that has maps data while the place has no name throws a
TypeError. -/
def findMatchingChunk (chunks : List GroundingChunk) (placeName : Option String) :
    Except String (Option MapsInfo) :=
  match chunks with
  | [] => Except.ok none
  | c :: rest =>
    match c.maps with
    | none => findMatchingChunk rest placeName
    | some m =>
      match placeName with
      | none => Except.error "TypeError"
      | some nm =>
        if strHasSub (strToLower m.title) (strToLower nm) = true then Except.ok (some m)
        else findMatchingChunk rest placeName

/-- findNearbyPlaces (geminiService), as a function of the raw reply text, the
grounding chunks, and JSON.parse restricted to the expected shape (`none`
models a parse failure). -/
def findNearbyPlaces (rawText : String) (chunks : List GroundingChunk)
    (jsonParse : String → Option (List ParsedPlace)) :
    Except String (List FoundPlace) :=
  let cleanedText := cleanResponseText rawText
  if strIsEmpty cleanedText = true then Except.ok []
  else if ¬ strStarts cleanedText "[" = true then Except.ok []
  else
    match jsonParse cleanedText with
    | none => Except.ok []
    | some places =>
      mapExcept (fun place =>
        match findMatchingChunk chunks place.name with
        | Except.error e => Except.error e
        | Except.ok matching =>
          Except.ok ⟨place.name, place.description, place.category,
            match matching with
            | some m => m.uri
            | none => "#"⟩) places

/-- The outcome of JSON.parse on the stored location entry, as far as
getValidLocation observes it. The parse may produce JSON null, on which
reading .timestamp throws a TypeError (turned into a null result by the
surrounding catch), or any other value, whose fields may be missing or
malformed: a timestamp of `none` models a field that is absent or whose
numeric coercion is NaN. -/
inductive ParsedLocation where
  | nullValue
  | record (lat lon : Option ℚ) (timestamp : Option Int)
deriving DecidableEq

/-- The timestamp field getValidLocation reads off the parsed value. -/
def ParsedLocation.timestampField : ParsedLocation → Option Int
  | nullValue => none
  | record _ _ ts => ts

/-- The JavaScript test Date.now() - locationData.timestamp >
LOCATION_EXPIRATION_MS: when the timestamp is missing or non-numeric the
subtraction is NaN and the comparison is false. -/
def isExpiredJs (now : Int) (ts : Option Int) : Bool :=
  match ts with
  | some t => decide (now - t > 15 * 60 * 1000)
  | none => false

/-- getValidLocation (NearbyPlaces view), as a function of the localStorage
read (which may throw), of JSON.parse on the stored entry (`none` models a
parse failure), and of Date.now(). Returns the outcome together with whether
the entry was removed from storage. -/
def getValidLocation (getItemResult : Except Unit (Option String))
    (jsonParse : String → Option ParsedLocation) (now : Int) :
    Option ParsedLocation × Bool :=
  match getItemResult with
  | Except.error _ => (none, false)
  | Except.ok none => (none, false)
  | Except.ok (some storedData) =>
    match jsonParse storedData with
    | none => (none, false)
    | some ParsedLocation.nullValue => (none, false)
    | some (ParsedLocation.record lat lon ts) =>
      if isExpiredJs now ts = true then (none, true)
      else (some (ParsedLocation.record lat lon ts), false)

/-- saveLocation (NearbyPlaces view): the record written to local storage,
carrying the coordinates and the current time. -/
def saveLocation (lat lon : ℚ) (now : Int) : ParsedLocation :=
  ParsedLocation.record (some lat) (some lon) (some now)

/-- handleToggleFavorite of the NearbyPlaces view: remove the name if present,
add it otherwise. -/
def handleToggleFavorite (favorites : Finset String) (placeName : String) : Finset String :=
  if placeName ∈ favorites then favorites.erase placeName else insert placeName favorites

/-- handleToggleFavorite of the TopPlaces view (same logic, separate copy in
the source). -/
def handleToggleFavoriteTopPlaces (favorites : Finset String) (placeName : String) : Finset String :=
  if placeName ∈ favorites then favorites.erase placeName else insert placeName favorites

/-- What JSON.parse produced for translatePlaceDetails: an array of the
expected element shape, or any non-array value. -/
inductive ParsedJson (α : Type) where
  | jsonArray (items : List α)
  | jsonOther
deriving DecidableEq

/-- translatePlaceDetails (geminiService), as a function of the input list, the
target language name, the model reply text and JSON.parse (`none` models a
parse failure, and any error thrown while inspecting the parsed value is caught
by the same catch, which also falls back to the input). The Bool records
whether the model was called. -/
def translatePlaceDetails (places : List (String × String)) (languageName : String)
    (respText : String) (jsonParse : String → Option (ParsedJson (String × String))) :
    List (String × String) × Bool :=
  if strToLower languageName = "english" then (places, false)
  else
    match jsonParse (jsTrim respText) with
    | none => (places, true)
    | some ParsedJson.jsonOther => (places, true)
    | some (ParsedJson.jsonArray translated) =>
      if translated.length = places.length then (translated, true) else (places, true)

/-! ## Lemmas about the retry loop -/

theorem retryGo_ok {α : Type} (apiCall : Nat → Except String α) (jitter : Nat → ℚ)
    (fuel attempt : Nat) (v : α) (hok : apiCall attempt = Except.ok v) :
    retryGo apiCall jitter (fuel + 1) attempt = ⟨Except.ok v, 1, []⟩ := by
  unfold retryGo
  rw [hok]

theorem retryGo_err {α : Type} (apiCall : Nat → Except String α) (jitter : Nat → ℚ)
    (fuel attempt : Nat) (e : String) (he : apiCall attempt = Except.error e) :
    retryGo apiCall jitter (fuel + 1) attempt =
      if isTransientError e = true ∧ 0 < fuel then
        ⟨(retryGo apiCall jitter fuel (attempt + 1)).result,
         (retryGo apiCall jitter fuel (attempt + 1)).calls + 1,
         (2 ^ (attempt + 1) * 1000 + jitter (attempt + 1)) ::
           (retryGo apiCall jitter fuel (attempt + 1)).delays⟩
      else ⟨Except.error e, 1, []⟩ := by
  conv_lhs => rw [retryGo]
  rw [he]

theorem retryGo_retry {α : Type} (apiCall : Nat → Except String α) (jitter : Nat → ℚ)
    (fuel attempt : Nat) (e : String) (he : apiCall attempt = Except.error e)
    (ht : isTransientError e = true) (hf : 0 < fuel) :
    retryGo apiCall jitter (fuel + 1) attempt =
      ⟨(retryGo apiCall jitter fuel (attempt + 1)).result,
       (retryGo apiCall jitter fuel (attempt + 1)).calls + 1,
       (2 ^ (attempt + 1) * 1000 + jitter (attempt + 1)) ::
         (retryGo apiCall jitter fuel (attempt + 1)).delays⟩ := by
  rw [retryGo_err apiCall jitter fuel attempt e he, if_pos ⟨ht, hf⟩]

theorem retryGo_stop {α : Type} (apiCall : Nat → Except String α) (jitter : Nat → ℚ)
    (fuel attempt : Nat) (e : String) (he : apiCall attempt = Except.error e)
    (h : ¬ (isTransientError e = true ∧ 0 < fuel)) :
    retryGo apiCall jitter (fuel + 1) attempt = ⟨Except.error e, 1, []⟩ := by
  rw [retryGo_err apiCall jitter fuel attempt e he, if_neg h]

theorem retryGo_calls_le {α : Type} (apiCall : Nat → Except String α) (jitter : Nat → ℚ)
    (fuel : Nat) : ∀ attempt, (retryGo apiCall jitter fuel attempt).calls ≤ fuel := by
  induction fuel with
  | zero => intro attempt; rfl
  | succ fuel ih =>
    intro attempt
    cases hc : apiCall attempt with
    | ok v => rw [retryGo_ok apiCall jitter fuel attempt v hc]; exact Nat.succ_le_succ (Nat.zero_le fuel)
    | error msg =>
      by_cases ht : isTransientError msg = true ∧ 0 < fuel
      · rw [retryGo_retry apiCall jitter fuel attempt msg hc ht.1 ht.2]
        exact Nat.succ_le_succ (ih (attempt + 1))
      · rw [retryGo_stop apiCall jitter fuel attempt msg hc ht]
        exact Nat.succ_le_succ (Nat.zero_le fuel)

theorem retryGo_ok_exists {α : Type} (apiCall : Nat → Except String α) (jitter : Nat → ℚ)
    (fuel : Nat) : ∀ attempt v, (retryGo apiCall jitter fuel attempt).result = Except.ok v →
    ∃ n, n < fuel ∧ apiCall (attempt + n) = Except.ok v := by
  induction fuel with
  | zero => intro attempt v h; exact absurd h (by simp [retryGo])
  | succ fuel ih =>
    intro attempt v h
    cases hc : apiCall attempt with
    | ok w =>
      rw [retryGo_ok apiCall jitter fuel attempt w hc] at h
      exact ⟨0, Nat.succ_pos fuel, by rw [Nat.add_zero, hc, h.symm]⟩
    | error msg =>
      by_cases ht : isTransientError msg = true ∧ 0 < fuel
      · rw [retryGo_retry apiCall jitter fuel attempt msg hc ht.1 ht.2] at h
        obtain ⟨n, hn, hcall⟩ := ih (attempt + 1) v h
        exact ⟨n + 1, Nat.succ_lt_succ hn, by rw [show attempt + (n + 1) = attempt + 1 + n by omega]; exact hcall⟩
      · rw [retryGo_stop apiCall jitter fuel attempt msg hc ht] at h
        exact absurd h (by simp)

theorem retryGo_success {α : Type} (apiCall : Nat → Except String α) (jitter : Nat → ℚ)
    (n : Nat) : ∀ fuel attempt (v : α), n < fuel →
    (∀ i, i < n → ∃ e, apiCall (attempt + i) = Except.error e ∧ isTransientError e = true) →
    apiCall (attempt + n) = Except.ok v →
    (retryGo apiCall jitter fuel attempt).result = Except.ok v ∧
    (retryGo apiCall jitter fuel attempt).calls = n + 1 := by
  induction n with
  | zero =>
    intro fuel attempt v hfuel _ hok
    obtain ⟨fuel, rfl⟩ : ∃ f, fuel = f + 1 := ⟨fuel - 1, by omega⟩
    rw [Nat.add_zero] at hok
    rw [retryGo_ok apiCall jitter fuel attempt v hok]
    exact ⟨rfl, rfl⟩
  | succ n ih =>
    intro fuel attempt v hfuel htrans hok
    obtain ⟨fuel, rfl⟩ : ∃ f, fuel = f + 1 := ⟨fuel - 1, by omega⟩
    obtain ⟨e, he, hte⟩ := htrans 0 (Nat.succ_pos n)
    rw [Nat.add_zero] at he
    rw [retryGo_retry apiCall jitter fuel attempt e he hte (by omega)]
    have step := ih fuel (attempt + 1) v (by omega)
      (fun i hi => by
        obtain ⟨e2, he2, hte2⟩ := htrans (i + 1) (by omega)
        exact ⟨e2, by rw [show attempt + 1 + i = attempt + (i + 1) by omega]; exact he2, hte2⟩)
      (by rw [show attempt + 1 + n = attempt + (n + 1) by omega]; exact hok)
    exact ⟨step.1, by rw [step.2]⟩

theorem retryGo_nontransient {α : Type} (apiCall : Nat → Except String α) (jitter : Nat → ℚ)
    (n : Nat) : ∀ fuel attempt (e : String), n < fuel →
    (∀ i, i < n → ∃ e2, apiCall (attempt + i) = Except.error e2 ∧ isTransientError e2 = true) →
    apiCall (attempt + n) = Except.error e → isTransientError e = false →
    (retryGo apiCall jitter fuel attempt).result = Except.error e ∧
    (retryGo apiCall jitter fuel attempt).calls = n + 1 := by
  induction n with
  | zero =>
    intro fuel attempt e hfuel _ herr hnt
    obtain ⟨fuel, rfl⟩ : ∃ f, fuel = f + 1 := ⟨fuel - 1, by omega⟩
    rw [Nat.add_zero] at herr
    rw [retryGo_stop apiCall jitter fuel attempt e herr (by rw [hnt]; simp)]
    exact ⟨rfl, rfl⟩
  | succ n ih =>
    intro fuel attempt e hfuel htrans herr hnt
    obtain ⟨fuel, rfl⟩ : ∃ f, fuel = f + 1 := ⟨fuel - 1, by omega⟩
    obtain ⟨e0, he0, hte0⟩ := htrans 0 (Nat.succ_pos n)
    rw [Nat.add_zero] at he0
    rw [retryGo_retry apiCall jitter fuel attempt e0 he0 hte0 (by omega)]
    have step := ih fuel (attempt + 1) e (by omega)
      (fun i hi => by
        obtain ⟨e2, he2, hte2⟩ := htrans (i + 1) (by omega)
        exact ⟨e2, by rw [show attempt + 1 + i = attempt + (i + 1) by omega]; exact he2, hte2⟩)
      (by rw [show attempt + 1 + n = attempt + (n + 1) by omega]; exact herr) hnt
    exact ⟨step.1, by rw [step.2]⟩

theorem retryGo_exhaust {α : Type} (apiCall : Nat → Except String α) (jitter : Nat → ℚ)
    (fuel : Nat) : ∀ attempt (es : Nat → String), 0 < fuel →
    (∀ i, i < fuel → apiCall (attempt + i) = Except.error (es i) ∧ isTransientError (es i) = true) →
    (retryGo apiCall jitter fuel attempt).result = Except.error (es (fuel - 1)) ∧
    (retryGo apiCall jitter fuel attempt).calls = fuel := by
  induction fuel with
  | zero => intro attempt es h; exact absurd h (by omega)
  | succ fuel ih =>
    intro attempt es _
    intro hall
    obtain ⟨he0, hte0⟩ := hall 0 (Nat.succ_pos fuel)
    rw [Nat.add_zero] at he0
    cases Nat.eq_zero_or_pos fuel with
    | inl hz =>
      subst hz
      rw [retryGo_stop apiCall jitter 0 attempt (es 0) he0 (by simp)]
      exact ⟨rfl, rfl⟩
    | inr hpos =>
      rw [retryGo_retry apiCall jitter fuel attempt (es 0) he0 hte0 hpos]
      have step := ih (attempt + 1) (fun i => es (i + 1)) hpos
        (fun i hi => by
          obtain ⟨he2, hte2⟩ := hall (i + 1) (by omega)
          exact ⟨by rw [show attempt + 1 + i = attempt + (i + 1) by omega]; exact he2, hte2⟩)
      constructor
      · show (retryGo apiCall jitter fuel (attempt + 1)).result = Except.error (es (fuel + 1 - 1))
        rw [step.1]
        show Except.error (es (fuel - 1 + 1)) = _
        have h3 : fuel - 1 + 1 = fuel + 1 - 1 := by omega
        rw [h3]
      · show (retryGo apiCall jitter fuel (attempt + 1)).calls + 1 = fuel + 1
        rw [step.2]

theorem retryGo_delays_take {α : Type} (apiCall : Nat → Except String α) (jitter : Nat → ℚ)
    (n : Nat) : ∀ fuel attempt, n < fuel →
    (∀ i, i < n → ∃ e, apiCall (attempt + i) = Except.error e ∧ isTransientError e = true) →
    (retryGo apiCall jitter fuel attempt).delays.take n =
      (List.range n).map (fun k => 2 ^ (attempt + k + 1) * 1000 + jitter (attempt + k + 1)) := by
  induction n with
  | zero => intro fuel attempt _ _; simp
  | succ n ih =>
    intro fuel attempt hfuel htrans
    obtain ⟨fuel, rfl⟩ : ∃ f, fuel = f + 1 := ⟨fuel - 1, by omega⟩
    obtain ⟨e, he, hte⟩ := htrans 0 (Nat.succ_pos n)
    rw [Nat.add_zero] at he
    rw [retryGo_retry apiCall jitter fuel attempt e he hte (by omega)]
    have step := ih fuel (attempt + 1) (by omega)
      (fun i hi => by
        obtain ⟨e2, he2, hte2⟩ := htrans (i + 1) (by omega)
        exact ⟨e2, by rw [show attempt + 1 + i = attempt + (i + 1) by omega]; exact he2, hte2⟩)
    show (2 ^ (attempt + 1) * 1000 + jitter (attempt + 1)) ::
        (retryGo apiCall jitter fuel (attempt + 1)).delays.take n = _
    rw [step, List.range_succ_eq_map, List.map_cons, List.map_map]
    refine congrArg₂ List.cons ?_ ?_
    · rw [Nat.add_zero]
    · apply List.map_congr_left
      intro k _
      simp only [Function.comp_apply, Nat.succ_eq_add_one]
      have h2 : attempt + 1 + k + 1 = attempt + (k + 1) + 1 := by omega
      rw [h2]

/-! ## Claim C1 -/

/-- C1: callGeminiWithRetry invokes its apiCall argument at most maxRetries
times (the default is 3). Any result of the wrapped call is returned unchanged;
in particular, if the attempts before the n-th all failed with transient errors
and the n-th attempt succeeds, its value is the overall result. If an attempt
fails with a non-transient error, that error is rethrown immediately, with
exactly n + 1 invocations made. If all maxRetries attempts fail with transient
errors, the error of the last attempt is rethrown. -/
theorem callGeminiWithRetry_spec (α : Type) (apiCall : Nat → Except String α)
    (jitter : Nat → ℚ) (maxRetries : Nat) :
    retryCalls apiCall jitter maxRetries ≤ maxRetries ∧
    (∀ v, callGeminiWithRetry apiCall jitter maxRetries = Except.ok v →
      ∃ n, n < maxRetries ∧ apiCall n = Except.ok v) ∧
    (∀ n v, n < maxRetries →
      (∀ i, i < n → ∃ e, apiCall i = Except.error e ∧ isTransientError e = true) →
      apiCall n = Except.ok v →
      callGeminiWithRetry apiCall jitter maxRetries = Except.ok v ∧
      retryCalls apiCall jitter maxRetries = n + 1) ∧
    (∀ n e, n < maxRetries →
      (∀ i, i < n → ∃ e2, apiCall i = Except.error e2 ∧ isTransientError e2 = true) →
      apiCall n = Except.error e → isTransientError e = false →
      callGeminiWithRetry apiCall jitter maxRetries = Except.error e ∧
      retryCalls apiCall jitter maxRetries = n + 1) ∧
    (∀ es : Nat → String, 0 < maxRetries →
      (∀ i, i < maxRetries →
        apiCall i = Except.error (es i) ∧ isTransientError (es i) = true) →
      callGeminiWithRetry apiCall jitter maxRetries = Except.error (es (maxRetries - 1)) ∧
      retryCalls apiCall jitter maxRetries = maxRetries) := by
  refine ⟨retryGo_calls_le apiCall jitter maxRetries 0, ?_, ?_, ?_, ?_⟩
  · intro v h
    obtain ⟨n, hn, hc⟩ := retryGo_ok_exists apiCall jitter maxRetries 0 v h
    exact ⟨n, hn, by rw [Nat.zero_add] at hc; exact hc⟩
  · intro n v hn htrans hok
    exact retryGo_success apiCall jitter n maxRetries 0 v hn
      (fun i hi => by rw [Nat.zero_add]; exact htrans i hi)
      (by rw [Nat.zero_add]; exact hok)
  · intro n e hn htrans herr hnt
    exact retryGo_nontransient apiCall jitter n maxRetries 0 e hn
      (fun i hi => by rw [Nat.zero_add]; exact htrans i hi)
      (by rw [Nat.zero_add]; exact herr) hnt
  · intro es hpos hall
    exact retryGo_exhaust apiCall jitter maxRetries 0 es hpos
      (fun i hi => by rw [Nat.zero_add]; exact hall i hi)

/-- C1 witness: with a wrapped call that succeeds at once, the wrapper of
default width 3 returns that value after a single invocation. -/
theorem callGeminiWithRetry_spec_witness :
    callGeminiWithRetry (fun _ => Except.ok (5 : Nat)) (fun _ => 0) 3 = Except.ok 5 ∧
    retryCalls (fun _ => Except.ok (5 : Nat)) (fun _ => 0) 3 = 1 :=
  (callGeminiWithRetry_spec Nat (fun _ => Except.ok 5) (fun _ => 0) 3).2.2.1 0 5
    (by omega) (fun i hi => absurd hi (Nat.not_lt_zero i)) rfl

/-! ## Claim C2 -/

/-- C2: exponential backoff with jitter. If the first n attempts (with
n below maxRetries) fail with transient errors, then the successive delays
slept before retries 1, ..., n are 2 ^ k * 1000 + jitter k milliseconds for
k = 1, ..., n; with every jitter draw in [0, 1000), each such delay lies in
[2 ^ k * 1000, 2 ^ k * 1000 + 1000), and the base delay doubles on each
successive retry. -/
theorem backoff_delays_spec (α : Type) (apiCall : Nat → Except String α)
    (jitter : Nat → ℚ) (maxRetries n : Nat) (h1 : 1 ≤ n) (h2 : n < maxRetries)
    (htrans : ∀ i, i < n → ∃ e, apiCall i = Except.error e ∧ isTransientError e = true)
    (hjit : ∀ m, 0 ≤ jitter m ∧ jitter m < 1000) :
    (retryDelays apiCall jitter maxRetries).take n =
      (List.range n).map (fun k => 2 ^ (k + 1) * 1000 + jitter (k + 1)) ∧
    (∀ k, k < n →
      2 ^ (k + 1) * 1000 ≤ 2 ^ (k + 1) * 1000 + jitter (k + 1) ∧
      2 ^ (k + 1) * 1000 + jitter (k + 1) < 2 ^ (k + 1) * 1000 + 1000 ∧
      (2 ^ (k + 1 + 1) * 1000 : ℚ) = 2 * (2 ^ (k + 1) * 1000)) := by
  constructor
  · have h := retryGo_delays_take apiCall jitter n maxRetries 0 h2
      (fun i hi => by rw [Nat.zero_add]; exact htrans i hi)
    rw [retryDelays, h]
    apply List.map_congr_left
    intro k _
    rw [Nat.zero_add]
  · intro k _
    refine ⟨le_add_of_nonneg_right (hjit (k + 1)).1, ?_, by ring⟩
    exact add_lt_add_left (hjit (k + 1)).2 _

/-- C2 witness: two transient failures with zero jitter produce the delay list
2000 ms then 4000 ms. -/
theorem backoff_delays_spec_witness :
    (retryDelays (fun _ => (Except.error "429" : Except String String)) (fun _ => (0 : ℚ)) 3).take 2 =
      (List.range 2).map (fun k => 2 ^ (k + 1) * 1000 + (0 : ℚ)) :=
  (backoff_delays_spec String (fun _ => (Except.error "429" : Except String String)) (fun _ => (0 : ℚ)) 3 2
    (by omega) (by omega) (fun i _ => ⟨"429", rfl, by decide⟩)
    (fun m => ⟨le_refl 0, by norm_num⟩)).1

/-! ## Claim C3 -/

theorem toInt16_bound (lo hi : Nat) (hlo : lo < 256) (hhi : hi < 256) :
    -32768 ≤ toInt16 lo hi ∧ toInt16 lo hi ≤ 32767 := by
  have h : toInt16 lo hi =
      if lo + 256 * hi < 32768 then ((lo + 256 * hi : Nat) : Int)
      else ((lo + 256 * hi : Nat) : Int) - 65536 := rfl
  rw [h]
  split <;> omega

theorem bytesToInt16_bound :
    ∀ (data : List Nat), (∀ b ∈ data, b < 256) →
      ∀ x ∈ bytesToInt16 data, -32768 ≤ x ∧ x ≤ 32767
  | [], _, x, hx => absurd hx (by simp [bytesToInt16])
  | [a], _, x, hx => absurd hx (by simp [bytesToInt16])
  | lo :: hi :: rest, h, x, hx => by
    rw [show bytesToInt16 (lo :: hi :: rest) = toInt16 lo hi :: bytesToInt16 rest from rfl] at hx
    rcases List.mem_cons.mp hx with hx | hx
    · subst hx
      exact toInt16_bound lo hi (h lo (by simp)) (h hi (by simp))
    · exact bytesToInt16_bound rest (fun b hb => h b (by simp [hb])) x hx

theorem int16_div_bounds (x : Int) (h1 : -32768 ≤ x) (h2 : x ≤ 32767) :
    -1 ≤ (x : ℚ) / 32768 ∧ (x : ℚ) / 32768 ≤ 1 := by
  constructor
  · rw [le_div_iff₀ (by norm_num : (0 : ℚ) < 32768)]
    have hc : (-32768 : ℚ) ≤ (x : ℚ) := by exact_mod_cast h1
    linarith
  · rw [div_le_one (by norm_num : (0 : ℚ) < 32768)]
    have hc : (x : ℚ) ≤ 32767 := by exact_mod_cast h2
    linarith

theorem decodeAudioData_row (data : List Nat) (numChannels c : Nat)
    (hc : c < numChannels) :
    (decodeAudioData data numChannels).getD c [] =
      (List.range ((bytesToInt16 data).length / numChannels)).map
        (fun i => ((bytesToInt16 data).getD (i * numChannels + c) 0 : ℚ) / 32768) := by
  unfold decodeAudioData
  rw [List.getD_eq_getElem?_getD, List.getElem?_map, List.getElem?_range hc]
  rfl

/-- C3: decodeAudioData interprets its input bytes as interleaved signed 16-bit
PCM. For an input of k 16-bit samples it produces numChannels channels of
k / numChannels frames each; the sample of channel c at frame i is the signed
16-bit integer at position i * numChannels + c divided by 32768, and when all
input bytes are in range that value lies between -1 and 1 inclusive. -/
theorem decodeAudioData_spec (data : List Nat) (numChannels : Nat)
    (hch : 0 < numChannels) (hbytes : ∀ b ∈ data, b < 256) :
    (decodeAudioData data numChannels).length = numChannels ∧
    (∀ c, c < numChannels →
      ((decodeAudioData data numChannels).getD c []).length =
        (bytesToInt16 data).length / numChannels) ∧
    (∀ c i, c < numChannels → i < (bytesToInt16 data).length / numChannels →
      ((decodeAudioData data numChannels).getD c []).getD i 0 =
        ((bytesToInt16 data).getD (i * numChannels + c) 0 : ℚ) / 32768 ∧
      -1 ≤ ((decodeAudioData data numChannels).getD c []).getD i 0 ∧
      ((decodeAudioData data numChannels).getD c []).getD i 0 ≤ 1) := by
  refine ⟨by unfold decodeAudioData; simp, ?_, ?_⟩
  · intro c hc
    rw [decodeAudioData_row data numChannels c hc]
    simp
  · intro c i hc hi
    rw [decodeAudioData_row data numChannels c hc]
    rw [List.getD_eq_getElem?_getD, List.getElem?_map, List.getElem?_range hi]
    refine ⟨rfl, ?_⟩
    show -1 ≤ ((bytesToInt16 data).getD (i * numChannels + c) 0 : ℚ) / 32768 ∧
      ((bytesToInt16 data).getD (i * numChannels + c) 0 : ℚ) / 32768 ≤ 1
    by_cases hidx : i * numChannels + c < (bytesToInt16 data).length
    · have hmem : (bytesToInt16 data).getD (i * numChannels + c) 0 ∈ bytesToInt16 data := by
        rw [List.getD_eq_getElem (bytesToInt16 data) 0 hidx]
        exact List.getElem_mem hidx
      have hb := bytesToInt16_bound data hbytes _ hmem
      exact int16_div_bounds _ hb.1 hb.2
    · rw [List.getD_eq_default (bytesToInt16 data) 0 (by omega)]
      norm_num

/-- C3 witness: the two bytes 0x00 0x80 are the single sample -32768, which
decodes to the normalized value -1. -/
theorem decodeAudioData_spec_witness :
    ((decodeAudioData [0, 128] 1).getD 0 []).getD 0 0 =
      ((bytesToInt16 [0, 128]).getD (0 * 1 + 0) 0 : ℚ) / 32768 ∧
    -1 ≤ ((decodeAudioData [0, 128] 1).getD 0 []).getD 0 0 ∧
    ((decodeAudioData [0, 128] 1).getD 0 []).getD 0 0 ≤ 1 :=
  (decodeAudioData_spec [0, 128] 1 (by decide) (by decide)).2.2 0 0 (by decide) (by decide)

/-! ## Claim C4 -/

/-- C4: identifyLandmark throws the could-not-identify error exactly when the
trimmed identification response contains the phrase unknown landmark
case-insensitively; otherwise it throws the failed-audio error exactly when the
text-to-speech response carries no inline audio data in its first candidate
part, and with audio data present it returns the landmark name, the history
text and the audio data. -/
theorem identifyLandmark_spec (identText histText : String) (audioInline : Option String) :
    (identifyLandmark identText histText audioInline =
        Except.error "I couldn\x27t identify a landmark in this photo. Please try another one." ↔
      strHasSub (strToLower (jsTrim identText)) "unknown landmark" = true) ∧
    (strHasSub (strToLower (jsTrim identText)) "unknown landmark" = false →
      (identifyLandmark identText histText audioInline =
          Except.error "Failed to generate audio data." ↔ audioInline = none)) ∧
    (strHasSub (strToLower (jsTrim identText)) "unknown landmark" = false →
      ∀ d, audioInline = some d →
        identifyLandmark identText histText audioInline =
          Except.ok ⟨jsTrim identText, jsTrim histText, d⟩) := by
  unfold identifyLandmark
  by_cases hu : strHasSub (strToLower (jsTrim identText)) "unknown landmark" = true
  · rw [if_pos hu]
    refine ⟨⟨fun _ => hu, fun _ => rfl⟩, fun hn => absurd hu (by rw [hn]; simp), ?_⟩
    intro hn
    exact absurd hu (by rw [hn]; simp)
  · rw [if_neg hu]
    have hu2 : strHasSub (strToLower (jsTrim identText)) "unknown landmark" = false := by
      revert hu
      cases strHasSub (strToLower (jsTrim identText)) "unknown landmark" <;> simp
    cases audioInline with
    | none =>
      refine ⟨⟨fun h => absurd h (by simp), fun h => absurd h.symm (by rw [hu2]; simp)⟩, ?_, ?_⟩
      · exact fun _ => ⟨fun _ => rfl, fun _ => rfl⟩
      · intro _ d hd
        exact absurd hd (by simp)
    | some d0 =>
      refine ⟨⟨fun h => absurd h (by simp), fun h => absurd h.symm (by rw [hu2]; simp)⟩, ?_, ?_⟩
      · exact fun _ => ⟨fun h => absurd h (by simp), fun h => absurd h (by simp)⟩
      · intro _ d hd
        rw [Option.some_inj] at hd
        rw [hd]

/-- C4 witness: a response reading Unknown Landmark produces the
could-not-identify error. -/
theorem identifyLandmark_spec_witness :
    identifyLandmark "Unknown Landmark" "some history" none =
      Except.error "I couldn\x27t identify a landmark in this photo. Please try another one." :=
  (identifyLandmark_spec "Unknown Landmark" "some history" none).1.mpr (by decide)

/-! ## Claim C8 -/

theorem getValidLocation_record (jsonParse : String → Option ParsedLocation)
    (now : Int) (st : String) (lat lon : Option ℚ) (ts : Option Int)
    (hp : jsonParse st = some (ParsedLocation.record lat lon ts)) :
    getValidLocation (Except.ok (some st)) jsonParse now =
      if isExpiredJs now ts = true then (none, true)
      else (some (ParsedLocation.record lat lon ts), false) := by
  unfold getValidLocation
  dsimp only
  rw [hp]

theorem getValidLocation_parseFail (jsonParse : String → Option ParsedLocation)
    (now : Int) (st : String) (hp : jsonParse st = none) :
    getValidLocation (Except.ok (some st)) jsonParse now = (none, false) := by
  unfold getValidLocation
  dsimp only
  rw [hp]

theorem getValidLocation_parseNull (jsonParse : String → Option ParsedLocation)
    (now : Int) (st : String) (hp : jsonParse st = some ParsedLocation.nullValue) :
    getValidLocation (Except.ok (some st)) jsonParse now = (none, false) := by
  unfold getValidLocation
  dsimp only
  rw [hp]

/-- C8 counterexample: local storage holds an entry that parses as an empty
JSON object. The timestamp read off it is undefined, the NaN comparison with
the expiration window is false, and the malformed value is returned (and not
removed) although it carries no timestamp at all and the current time is far
beyond any 15-minute window — refuting the exactly-when clause and the
guarantee that every returned location was saved within the last 15 minutes. -/
theorem getValidLocation_counterexample :
    getValidLocation (Except.ok (some "\x7b\x7d"))
      (fun _ => some (ParsedLocation.record none none none)) 1000000000 =
      (some (ParsedLocation.record none none none), false) := rfl

/-- C8 (amended): getValidLocation yields null on storage errors, missing
entries, parse failures and JSON null entries; an entry whose numeric
timestamp is more than 15 minutes (15 * 60 * 1000 ms) older than the current
time is removed from storage and null returned. A parsed non-null value is
returned exactly when every numeric timestamp it carries is at most 15
minutes old; in particular an entry without a numeric timestamp is returned
as well, because the NaN comparison is false, so only the returned locations
that do carry a numeric timestamp were saved within the last 15 minutes.
saveLocation stamps the current time. -/
theorem getValidLocation_spec (getItemResult : Except Unit (Option String))
    (jsonParse : String → Option ParsedLocation) (now : Int) :
    (∀ loc, (getValidLocation getItemResult jsonParse now).1 = some loc ↔
      ∃ st, getItemResult = Except.ok (some st) ∧ jsonParse st = some loc ∧
        loc ≠ ParsedLocation.nullValue ∧
        (∀ t, loc.timestampField = some t → now - t ≤ 15 * 60 * 1000)) ∧
    (∀ st loc t, getItemResult = Except.ok (some st) → jsonParse st = some loc →
      loc.timestampField = some t → now - t > 15 * 60 * 1000 →
      getValidLocation getItemResult jsonParse now = (none, true)) ∧
    (∀ e, getItemResult = Except.error e →
      getValidLocation getItemResult jsonParse now = (none, false)) ∧
    (∀ st, getItemResult = Except.ok (some st) → jsonParse st = none →
      getValidLocation getItemResult jsonParse now = (none, false)) ∧
    (∀ st, getItemResult = Except.ok (some st) →
      jsonParse st = some ParsedLocation.nullValue →
      getValidLocation getItemResult jsonParse now = (none, false)) ∧
    (∀ lat lon, (saveLocation lat lon now).timestampField = some now) := by
  refine ⟨?_, ?_, ?_, ?_, ?_, fun _ _ => rfl⟩
  · intro loc
    cases getItemResult with
    | error e =>
      exact ⟨fun h => absurd h (by simp [getValidLocation]),
        fun ⟨st, hst, _, _, _⟩ => absurd hst (by simp)⟩
    | ok o =>
      cases o with
      | none =>
        exact ⟨fun h => absurd h (by simp [getValidLocation]),
          fun ⟨st, hst, _, _, _⟩ => absurd hst (by simp)⟩
      | some st =>
        cases hp : jsonParse st with
        | none =>
          rw [getValidLocation_parseFail jsonParse now st hp]
          refine ⟨fun h => absurd h (by simp), fun ⟨st2, hst2, hp2, _, _⟩ => ?_⟩
          rw [Except.ok.injEq, Option.some_inj] at hst2
          subst hst2
          exact absurd (hp.symm.trans hp2) (by simp)
        | some pl =>
          cases pl with
          | nullValue =>
            rw [getValidLocation_parseNull jsonParse now st hp]
            refine ⟨fun h => absurd h (by simp), fun ⟨st2, hst2, hp2, hnn, _⟩ => ?_⟩
            rw [Except.ok.injEq, Option.some_inj] at hst2
            subst hst2
            have hl : ParsedLocation.nullValue = loc := Option.some_inj.mp (hp.symm.trans hp2)
            exact absurd hl.symm hnn
          | record lat lon ts =>
            rw [getValidLocation_record jsonParse now st lat lon ts hp]
            cases ts with
            | none =>
              rw [if_neg (by simp [isExpiredJs])]
              refine ⟨fun h => ?_, fun ⟨st2, hst2, hp2, _, _⟩ => ?_⟩
              · have hl : ParsedLocation.record lat lon none = loc := Option.some_inj.mp h
                subst hl
                exact ⟨st, rfl, hp, by simp, fun t ht => absurd ht (by simp
                  [ParsedLocation.timestampField])⟩
              · rw [Except.ok.injEq, Option.some_inj] at hst2
                subst hst2
                have hl : ParsedLocation.record lat lon none = loc :=
                  Option.some_inj.mp (hp.symm.trans hp2)
                subst hl
                rfl
            | some t =>
              by_cases hex : now - t > 15 * 60 * 1000
              · rw [if_pos (by unfold isExpiredJs; exact decide_eq_true hex)]
                refine ⟨fun h => absurd h (by simp), fun ⟨st2, hst2, hp2, _, hts⟩ => ?_⟩
                rw [Except.ok.injEq, Option.some_inj] at hst2
                subst hst2
                have hl : ParsedLocation.record lat lon (some t) = loc :=
                  Option.some_inj.mp (hp.symm.trans hp2)
                subst hl
                have := hts t rfl
                omega
              · rw [if_neg (by unfold isExpiredJs; simp only [decide_eq_true_eq]; omega)]
                refine ⟨fun h => ?_, fun ⟨st2, hst2, hp2, _, _⟩ => ?_⟩
                · have hl : ParsedLocation.record lat lon (some t) = loc := Option.some_inj.mp h
                  subst hl
                  refine ⟨st, rfl, hp, by simp, fun t2 ht2 => ?_⟩
                  have ht3 : t = t2 := Option.some_inj.mp ht2
                  omega
                · rw [Except.ok.injEq, Option.some_inj] at hst2
                  subst hst2
                  have hl : ParsedLocation.record lat lon (some t) = loc :=
                    Option.some_inj.mp (hp.symm.trans hp2)
                  subst hl
                  rfl
  · intro st loc t hg hp hts hex
    subst hg
    cases loc with
    | nullValue => exact absurd hts (by simp [ParsedLocation.timestampField])
    | record lat lon ts =>
      have hts2 : ts = some t := hts
      subst hts2
      rw [getValidLocation_record jsonParse now st lat lon (some t) hp,
        if_pos (by unfold isExpiredJs; exact decide_eq_true hex)]
  · intro e hg
    subst hg
    rfl
  · intro st hg hp
    subst hg
    exact getValidLocation_parseFail jsonParse now st hp
  · intro st hg hp
    subst hg
    exact getValidLocation_parseNull jsonParse now st hp

/-- C8 witness: a well-formed fresh entry is returned. -/
theorem getValidLocation_spec_witness :
    (getValidLocation (Except.ok (some "loc"))
      (fun _ => some (ParsedLocation.record (some 1) (some 2) (some 100))) 200).1 =
      some (ParsedLocation.record (some 1) (some 2) (some 100)) :=
  ((getValidLocation_spec (Except.ok (some "loc"))
      (fun _ => some (ParsedLocation.record (some 1) (some 2) (some 100))) 200).1
    (ParsedLocation.record (some 1) (some 2) (some 100))).mpr
    ⟨"loc", rfl, rfl, by simp, fun t ht => by
      have h2 : (100 : Int) = t := Option.some_inj.mp ht
      omega⟩

/-! ## Claim C9 -/

/-- C9: toggling a favorite adds the name when absent and removes it when
present, leaves every other name unchanged, two successive toggles restore the
original set, and the NearbyPlaces and TopPlaces implementations agree. -/
theorem handleToggleFavorite_spec (favorites : Finset String) (placeName other : String) :
    handleToggleFavorite favorites placeName =
      handleToggleFavoriteTopPlaces favorites placeName ∧
    (placeName ∈ handleToggleFavorite favorites placeName ↔ placeName ∉ favorites) ∧
    (other ≠ placeName →
      (other ∈ handleToggleFavorite favorites placeName ↔ other ∈ favorites)) ∧
    handleToggleFavorite (handleToggleFavorite favorites placeName) placeName = favorites := by
  refine ⟨rfl, ?_, ?_, ?_⟩
  · unfold handleToggleFavorite
    by_cases h : placeName ∈ favorites
    · rw [if_pos h]
      simp [h]
    · rw [if_neg h]
      simp [h]
  · intro hne
    unfold handleToggleFavorite
    by_cases h : placeName ∈ favorites
    · rw [if_pos h]
      simp [Finset.mem_erase, hne]
    · rw [if_neg h]
      simp [Finset.mem_insert, hne]
  · unfold handleToggleFavorite
    by_cases h : placeName ∈ favorites
    · rw [if_pos h, if_neg (by simp), Finset.insert_erase h]
    · rw [if_neg h, if_pos (Finset.mem_insert_self placeName favorites),
        Finset.erase_insert h]

/-- C9 witness: toggling b leaves membership of a unchanged. -/
theorem handleToggleFavorite_spec_witness :
    "a" ∈ handleToggleFavorite {"a"} "b" ↔ "a" ∈ ({"a"} : Finset String) :=
  (handleToggleFavorite_spec {"a"} "b" "a").2.2.1 (by decide)

/-! ## Claim C10 -/

/-- C10: translatePlaceDetails always yields a list of exactly the length of
its input; for English (case-insensitively) it returns the input without
calling the model, and a reply that fails to parse, is not an array, or has a
different length makes it fall back to the input list. -/
theorem translatePlaceDetails_spec (places : List (String × String)) (languageName : String)
    (respText : String) (jsonParse : String → Option (ParsedJson (String × String))) :
    (translatePlaceDetails places languageName respText jsonParse).1.length = places.length ∧
    (strToLower languageName = "english" →
      translatePlaceDetails places languageName respText jsonParse = (places, false)) ∧
    (strToLower languageName ≠ "english" →
      (translatePlaceDetails places languageName respText jsonParse).2 = true) ∧
    (∀ translated, strToLower languageName ≠ "english" →
      jsonParse (jsTrim respText) = some (ParsedJson.jsonArray translated) →
      translated.length = places.length →
      translatePlaceDetails places languageName respText jsonParse = (translated, true)) ∧
    (strToLower languageName ≠ "english" →
      (jsonParse (jsTrim respText) = none ∨
       jsonParse (jsTrim respText) = some ParsedJson.jsonOther ∨
       (∃ translated, jsonParse (jsTrim respText) = some (ParsedJson.jsonArray translated) ∧
         translated.length ≠ places.length)) →
      (translatePlaceDetails places languageName respText jsonParse).1 = places) := by
  unfold translatePlaceDetails
  by_cases he : strToLower languageName = "english"
  · rw [if_pos he]
    exact ⟨rfl, fun _ => rfl, fun hn => absurd he hn, fun _ hn => absurd he hn,
      fun hn => absurd he hn⟩
  · rw [if_neg he]
    cases hp : jsonParse (jsTrim respText) with
    | none =>
      dsimp only
      refine ⟨rfl, fun h => absurd h he, fun _ => rfl, ?_, fun _ _ => rfl⟩
      intro translated _ hj _
      exact absurd hj (by simp)
    | some pj =>
      cases pj with
      | jsonOther =>
        dsimp only
        refine ⟨rfl, fun h => absurd h he, fun _ => rfl, ?_, fun _ _ => rfl⟩
        intro translated _ hj _
        exact absurd hj (by simp)
      | jsonArray translated0 =>
        dsimp only
        by_cases hl : translated0.length = places.length
        · rw [if_pos hl]
          refine ⟨hl, fun h => absurd h he, fun _ => rfl, ?_, ?_⟩
          · intro translated _ hj _
            have h2 : translated0 = translated := by
              have := Option.some_inj.mp hj
              exact ParsedJson.jsonArray.inj this
            rw [h2]
          · intro _ hcase
            rcases hcase with hc | hc | ⟨tr, hc, hlen⟩
            · exact absurd hc (by simp)
            · exact absurd (Option.some_inj.mp hc) (by simp)
            · have h2 : translated0 = tr := ParsedJson.jsonArray.inj (Option.some_inj.mp hc)
              subst h2
              exact absurd hl hlen
        · rw [if_neg hl]
          refine ⟨rfl, fun h => absurd h he, fun _ => rfl, ?_, fun _ _ => rfl⟩
          intro translated _ hj hlen
          have h2 : translated0 = translated := ParsedJson.jsonArray.inj (Option.some_inj.mp hj)
          subst h2
          exact absurd hlen hl

/-- C10 witness: for English the input is returned and the model is not
called. -/
theorem translatePlaceDetails_spec_witness :
    translatePlaceDetails [("a", "b")] "English" "ignored" (fun _ => none) =
      ([("a", "b")], false) :=
  (translatePlaceDetails_spec [("a", "b")] "English" "ignored" (fun _ => none)).2.1 (by decide)

/-! ## Lemmas about mapExcept -/

theorem mapExcept_ok_mem {α ε β : Type} (f : α → Except ε β) :
    ∀ (l : List α) (res : List β), mapExcept f l = Except.ok res →
    ∀ b ∈ res, ∃ a ∈ l, f a = Except.ok b := by
  intro l
  induction l with
  | nil =>
    intro res h b hb
    have hres : ([] : List β) = res := by simpa [mapExcept] using h
    subst hres
    exact absurd hb (by simp)
  | cons a as ih =>
    intro res h b hb
    unfold mapExcept at h
    cases hfa : f a with
    | error e =>
      rw [hfa] at h
      exact absurd h (by simp)
    | ok b0 =>
      rw [hfa] at h
      dsimp only at h
      cases hrest : mapExcept f as with
      | error e =>
        rw [hrest] at h
        exact absurd h (by simp)
      | ok bs =>
        rw [hrest] at h
        dsimp only at h
        have hres : b0 :: bs = res := by simpa using h
        subst hres
        rcases List.mem_cons.mp hb with hb | hb
        · subst hb
          exact ⟨a, List.mem_cons_self a as, hfa⟩
        · obtain ⟨a2, ha2, h2⟩ := ih bs hrest b hb
          exact ⟨a2, List.mem_cons_of_mem a ha2, h2⟩

theorem mapExcept_length {α ε β : Type} (f : α → Except ε β) :
    ∀ (l : List α) (res : List β), mapExcept f l = Except.ok res →
    res.length = l.length := by
  intro l
  induction l with
  | nil =>
    intro res h
    have hres : ([] : List β) = res := by simpa [mapExcept] using h
    subst hres
    rfl
  | cons a as ih =>
    intro res h
    unfold mapExcept at h
    cases hfa : f a with
    | error e =>
      rw [hfa] at h
      exact absurd h (by simp)
    | ok b0 =>
      rw [hfa] at h
      dsimp only at h
      cases hrest : mapExcept f as with
      | error e =>
        rw [hrest] at h
        exact absurd h (by simp)
      | ok bs =>
        rw [hrest] at h
        have hres : b0 :: bs = res := by simpa using h
        subst hres
        simp [ih bs hrest]

theorem mapExcept_all_ok {α ε β : Type} (f : α → Except ε β) :
    ∀ (l : List α), (∀ a ∈ l, ∃ b, f a = Except.ok b) →
    ∃ res, mapExcept f l = Except.ok res := by
  intro l
  induction l with
  | nil => intro _; exact ⟨[], rfl⟩
  | cons a as ih =>
    intro h
    obtain ⟨b0, hb0⟩ := h a (List.mem_cons_self a as)
    obtain ⟨bs, hbs⟩ := ih (fun a2 ha2 => h a2 (List.mem_cons_of_mem a ha2))
    refine ⟨b0 :: bs, ?_⟩
    unfold mapExcept
    rw [hb0]
    dsimp only
    rw [hbs]

/-! ## Claim C5 -/

theorem topPlaceOfRaw_ok (enc : String → String) (place : RawPlace) (ts : List String)
    (hts : place.types = some ts) :
    topPlaceOfRaw enc place = Except.ok
      { name := jsOrStr place.name "Unknown Place"
        description := jsOrStr place.description ""
        formatted_address := jsOrStr place.formatted_address ""
        category := jsTypesHead ts
        mapUri := "https://www.google.com/maps?q=" ++ enc (jsOrStr place.name "")
        imageUrl := jsOrUndef place.image_url
        audioData := none } := by
  unfold topPlaceOfRaw
  rw [hts]

theorem mapExcept_topPlaces (enc : String → String) :
    ∀ l : List RawPlace, (∀ p ∈ l, p.types.isSome = true) →
    mapExcept (topPlaceOfRaw enc) l = Except.ok (l.map (fun place =>
      { name := jsOrStr place.name "Unknown Place"
        description := jsOrStr place.description ""
        formatted_address := jsOrStr place.formatted_address ""
        category := jsTypesHead (place.types.getD [])
        mapUri := "https://www.google.com/maps?q=" ++ enc (jsOrStr place.name "")
        imageUrl := jsOrUndef place.image_url
        audioData := none })) := by
  intro l
  induction l with
  | nil => intro _; rfl
  | cons p rest ih =>
    intro h
    obtain ⟨ts, hts⟩ := Option.isSome_iff_exists.mp (h p (List.mem_cons_self p rest))
    unfold mapExcept
    rw [topPlaceOfRaw_ok enc p ts hts]
    dsimp only
    rw [ih (fun q hq => h q (List.mem_cons_of_mem p hq))]
    dsimp only
    rw [List.map_cons, hts]
    rfl

/-- C5 counterexample: an entry whose types field is missing makes getTopPlaces
throw a TypeError instead of producing a place with the Landmark default, so
the per-entry defaulting stated by the claim fails for a missing types field. -/
theorem getTopPlaces_counterexample :
    getTopPlaces (fun s => s) true
      (some (PlacesField.fieldArray [⟨some "Museo", some "d", none, none, none⟩])) =
      Except.error "TypeError" := rfl

/-- C5 (amended): getTopPlaces returns the empty list when the city document
does not exist or its data has no places field; when every entry carries a
types field (array or object shaped), it returns one place per entry, where a
missing or empty name defaults to Unknown Place, a missing description defaults
to the empty string, and the category is the first types element, defaulting to
Landmark when the types array is empty or its first element is empty. An entry
without a types field instead makes the call throw a TypeError. -/
theorem getTopPlaces_spec (enc : String → String) (placesField : Option PlacesField) :
    getTopPlaces enc false placesField = Except.ok [] ∧
    getTopPlaces enc true none = Except.ok [] ∧
    (∀ pf : PlacesField, (∀ p ∈ pf.entriesList, p.types.isSome = true) →
      getTopPlaces enc true (some pf) = Except.ok (pf.entriesList.map (fun place =>
        { name := jsOrStr place.name "Unknown Place"
          description := jsOrStr place.description ""
          formatted_address := jsOrStr place.formatted_address ""
          category := jsTypesHead (place.types.getD [])
          mapUri := "https://www.google.com/maps?q=" ++ enc (jsOrStr place.name "")
          imageUrl := jsOrUndef place.image_url
          audioData := none }))) := by
  refine ⟨rfl, rfl, ?_⟩
  intro pf h
  show mapExcept (topPlaceOfRaw enc) pf.entriesList = _
  exact mapExcept_topPlaces enc pf.entriesList h

/-- C5 witness: a single entry with a types array is mapped with all the
defaults applied. -/
theorem getTopPlaces_spec_witness :
    getTopPlaces (fun s => s) true
      (some (PlacesField.fieldArray [⟨none, none, none, some ["Museum"], none⟩])) =
      Except.ok [⟨"Unknown Place", "", "", "Museum", "https://www.google.com/maps?q=", none, none⟩] :=
  (getTopPlaces_spec (fun s => s) none).2.2
    (PlacesField.fieldArray [⟨none, none, none, some ["Museum"], none⟩]) (by decide)

/-! ## Claim C6 -/

/-- C6: whenever the mount/language effect of the NearbyPlaces view runs while
the module-level sessionCache is non-null and its stored language equals the
current language, the displayed places, hasMore flag and coordinates are
restored from the cache and neither findNearbyPlaces nor generateImageForPlace
is called; and a fresh successful fetch (no cache) repopulates the cache with
the fetched places under the current language. -/
theorem nearby_sessionCache_spec (cache : Option SessionCache) (language : String)
    (validLoc : Option StoredLocation) (st : NPState)
    (fetchResult : Except String (List NPBase)) (images : List (Option String))
    (errNearbyMsg : String) :
    (∀ c, cache = some c → c.language = language →
      mountLanguageEffect cache language validLoc st fetchResult images errNearbyMsg =
        ({ st with
            places := some c.places
            hasMore := c.hasMore
            coordinates := some (c.lat, c.lon)
            loadingIdle := true
            error := none },
         some c, false, 0)) ∧
    (∀ loc fetched, cache = none → validLoc = some loc →
      fetchResult = Except.ok fetched → fetched ≠ [] →
      (mountLanguageEffect cache language validLoc st fetchResult images errNearbyMsg).2.1 =
        some ⟨buildFinalPlaces fetched images, language, true, loc.lat, loc.lon⟩) := by
  constructor
  · intro c hc hlang
    subst hc
    unfold mountLanguageEffect
    dsimp only
    rw [if_pos hlang]
  · intro loc fetched hc hv hf hne
    subst hc
    subst hv
    subst hf
    have hemp : fetched.isEmpty = false := by
      cases fetched with
      | nil => exact absurd rfl hne
      | cons a l => rfl
    unfold mountLanguageEffect effectFetchPath fetchAndDisplayPlaces
    dsimp only
    rw [if_neg (by rw [hemp]; simp)]

/-- C6 witness: with a cache stored for the current language the state is
restored and no api call is made. -/
theorem nearby_sessionCache_spec_witness :
    mountLanguageEffect (some ⟨[], "en", true, 1, 2⟩) "en" none
      ⟨none, true, none, none, true⟩ (Except.ok []) [] "err" =
      ({ places := some [], hasMore := true, coordinates := some (1, 2),
         error := none, loadingIdle := true }, some ⟨[], "en", true, 1, 2⟩, false, 0) :=
  (nearby_sessionCache_spec (some ⟨[], "en", true, 1, 2⟩) "en" none
    ⟨none, true, none, none, true⟩ (Except.ok []) [] "err").1
    ⟨[], "en", true, 1, 2⟩ rfl rfl

/-! ## Claim C7 -/

theorem findMatchingChunk_noName (chunks : List GroundingChunk) :
    findMatchingChunk chunks none = Except.ok none ∨
    findMatchingChunk chunks none = Except.error "TypeError" := by
  induction chunks with
  | nil => exact Or.inl rfl
  | cons c rest ih =>
    unfold findMatchingChunk
    cases hm : c.maps with
    | none => exact ih
    | some mi => exact Or.inr rfl

theorem findMatchingChunk_ok_of_name (chunks : List GroundingChunk) (nm : String) :
    ∃ r, findMatchingChunk chunks (some nm) = Except.ok r := by
  induction chunks with
  | nil => exact ⟨none, rfl⟩
  | cons c rest ih =>
    unfold findMatchingChunk
    cases hm : c.maps with
    | none => exact ih
    | some mi =>
      dsimp only
      by_cases hs : strHasSub (strToLower mi.title) (strToLower nm) = true
      · rw [if_pos hs]
        exact ⟨some mi, rfl⟩
      · rw [if_neg hs]
        exact ih

theorem findMatchingChunk_some (chunks : List GroundingChunk) (placeName : Option String)
    (m : MapsInfo) :
    findMatchingChunk chunks placeName = Except.ok (some m) →
    (∃ c ∈ chunks, c.maps = some m) ∧
    ∃ nm, placeName = some nm ∧ strHasSub (strToLower m.title) (strToLower nm) = true := by
  cases placeName with
  | none =>
    intro h
    rcases findMatchingChunk_noName chunks with h2 | h2 <;>
      exact absurd (h2.symm.trans h) (by simp)
  | some nm =>
    induction chunks with
    | nil =>
      intro h
      exact absurd h (by simp [findMatchingChunk])
    | cons c rest ih =>
      intro h
      unfold findMatchingChunk at h
      cases hm : c.maps with
      | none =>
        rw [hm] at h
        obtain ⟨⟨c2, hc2, hm2⟩, hnm⟩ := ih h
        exact ⟨⟨c2, List.mem_cons_of_mem c hc2, hm2⟩, hnm⟩
      | some mi =>
        rw [hm] at h
        dsimp only at h
        by_cases hs : strHasSub (strToLower mi.title) (strToLower nm) = true
        · rw [if_pos hs] at h
          have hmi : mi = m := by simpa using h
          subst hmi
          exact ⟨⟨c, List.mem_cons_self c rest, hm⟩, nm, rfl, hs⟩
        · rw [if_neg hs] at h
          obtain ⟨⟨c2, hc2, hm2⟩, hnm⟩ := ih h
          exact ⟨⟨c2, List.mem_cons_of_mem c hc2, hm2⟩, hnm⟩

theorem findMatchingChunk_none_forall (chunks : List GroundingChunk)
    (placeName : Option String) :
    findMatchingChunk chunks placeName = Except.ok none →
    ∀ c ∈ chunks, ∀ mm, c.maps = some mm →
      ∀ nm, placeName = some nm →
        strHasSub (strToLower mm.title) (strToLower nm) = false := by
  induction chunks with
  | nil =>
    intro _ c hc
    exact absurd hc (by simp)
  | cons c0 rest ih =>
    intro h c hc mm hmm nm hnm
    subst hnm
    unfold findMatchingChunk at h
    cases hm : c0.maps with
    | none =>
      rw [hm] at h
      rcases List.mem_cons.mp hc with hceq | hcr
      · subst hceq
        exact absurd (hm.symm.trans hmm) (by simp)
      · exact ih h c hcr mm hmm nm rfl
    | some mi =>
      rw [hm] at h
      dsimp only at h
      by_cases hs : strHasSub (strToLower mi.title) (strToLower nm) = true
      · rw [if_pos hs] at h
        exact absurd h (by simp)
      · rw [if_neg hs] at h
        rcases List.mem_cons.mp hc with hceq | hcr
        · subst hceq
          have hmi : mi = mm := Option.some_inj.mp (hm.symm.trans hmm)
          subst hmi
          revert hs
          cases strHasSub (strToLower mi.title) (strToLower nm) <;> simp
        · exact ih h c hcr mm hmm nm rfl

/-- C7 counterexample: a reply that parses as a JSON array whose single entry
has no name key, together with one grounding chunk that carries maps data,
makes findNearbyPlaces throw a TypeError, so the function does not return a
list for every malformed model reply. -/
theorem findNearbyPlaces_counterexample :
    findNearbyPlaces "[\x7b\x7d]" [⟨some ⟨"Central Park", "https://maps.example/x"⟩⟩]
      (fun t => if t = "[\x7b\x7d]" then some [⟨none, none, none⟩] else none) =
      Except.error "TypeError" := rfl

/-- C7 (amended): findNearbyPlaces returns the empty list whenever the cleaned
reply text is empty, does not start with an opening bracket, or fails to parse
as JSON; every place it does return carries a mapUri, namely the uri of a
grounding chunk whose maps title contains the place name case-insensitively,
and the placeholder exactly when no grounding chunk with maps data matches the
place name; and whenever every parsed entry carries a name the
call returns a list, of the same length as the parsed array. However, a parsed
entry without a name makes the call throw a TypeError when some grounding chunk
carries maps data, instead of returning a list. -/
theorem findNearbyPlaces_spec (rawText : String) (chunks : List GroundingChunk)
    (jsonParse : String → Option (List ParsedPlace)) :
    (strIsEmpty (cleanResponseText rawText) = true →
      findNearbyPlaces rawText chunks jsonParse = Except.ok []) ∧
    (strStarts (cleanResponseText rawText) "[" = false →
      findNearbyPlaces rawText chunks jsonParse = Except.ok []) ∧
    (jsonParse (cleanResponseText rawText) = none →
      findNearbyPlaces rawText chunks jsonParse = Except.ok []) ∧
    (∀ res, findNearbyPlaces rawText chunks jsonParse = Except.ok res →
      ∀ p ∈ res,
        (∃ m, (∃ c ∈ chunks, c.maps = some m) ∧
          (∃ nm, p.name = some nm ∧
            strHasSub (strToLower m.title) (strToLower nm) = true) ∧
          p.mapUri = m.uri) ∨
        (p.mapUri = "#" ∧ ∀ c ∈ chunks, ∀ mm, c.maps = some mm →
          ∀ nm, p.name = some nm →
            strHasSub (strToLower mm.title) (strToLower nm) = false)) ∧
    (∀ places, strIsEmpty (cleanResponseText rawText) = false →
      strStarts (cleanResponseText rawText) "[" = true →
      jsonParse (cleanResponseText rawText) = some places →
      (∀ pl ∈ places, pl.name.isSome = true) →
      ∃ res, findNearbyPlaces rawText chunks jsonParse = Except.ok res ∧
        res.length = places.length) := by
  unfold findNearbyPlaces
  dsimp only
  by_cases hempty : strIsEmpty (cleanResponseText rawText) = true
  · rw [if_pos hempty]
    refine ⟨fun _ => rfl, fun _ => rfl, fun _ => rfl, ?_, ?_⟩
    · intro res hres p hp
      have h0 : ([] : List FoundPlace) = res := by simpa using hres
      subst h0
      exact absurd hp (by simp)
    · intro places hempt2 _ _ _
      exact absurd hempty (by rw [hempt2]; simp)
  · rw [if_neg hempty]
    by_cases hstart : strStarts (cleanResponseText rawText) "[" = true
    · rw [if_neg (by rw [hstart]; simp)]
      cases hp : jsonParse (cleanResponseText rawText) with
      | none =>
        refine ⟨fun h => absurd h hempty, fun h => absurd (hstart.symm.trans h) (by simp),
          fun _ => rfl, ?_, ?_⟩
        · intro res hres p hpmem
          have h0 : ([] : List FoundPlace) = res := by simpa using hres
          subst h0
          exact absurd hpmem (by simp)
        · intro places _ _ hp2 _
          exact absurd hp2 (by simp)
      | some places0 =>
        dsimp only
        refine ⟨fun h => absurd h hempty, fun h => absurd (hstart.symm.trans h) (by simp),
          fun h => absurd h (by simp), ?_, ?_⟩
        · intro res hres p hpmem
          obtain ⟨a, ha, hfa⟩ := mapExcept_ok_mem _ places0 res hres p hpmem
          cases hfm : findMatchingChunk chunks a.name with
          | error e =>
            rw [hfm] at hfa
            exact absurd hfa (by simp)
          | ok matching =>
            rw [hfm] at hfa
            dsimp only at hfa
            cases matching with
            | none =>
              right
              have hpa : (⟨a.name, a.description, a.category, "#"⟩ : FoundPlace) = p :=
                Except.ok.inj hfa
              refine ⟨by rw [← hpa], ?_⟩
              intro c hc mm hmm nm hnm
              rw [← hpa] at hnm
              exact findMatchingChunk_none_forall chunks a.name hfm c hc mm hmm nm hnm
            | some m =>
              left
              have hpa : (⟨a.name, a.description, a.category, m.uri⟩ : FoundPlace) = p :=
                Except.ok.inj hfa
              obtain ⟨hcm, nm, hnm, hs⟩ := findMatchingChunk_some chunks a.name m hfm
              refine ⟨m, hcm, ⟨nm, ?_, hs⟩, ?_⟩
              · rw [← hpa]
                exact hnm
              · rw [← hpa]
        · intro places _ _ hp2 hnames
          have hpl : places0 = places := Option.some_inj.mp hp2
          subst hpl
          have hall : ∀ a ∈ places0, ∃ b, (fun place =>
              match findMatchingChunk chunks place.name with
              | Except.error e => (Except.error e : Except String FoundPlace)
              | Except.ok matching =>
                Except.ok ⟨place.name, place.description, place.category,
                  match matching with
                  | some m => m.uri
                  | none => "#"⟩) a = Except.ok b := by
            intro a ha
            obtain ⟨nm, hnm⟩ := Option.isSome_iff_exists.mp (hnames a ha)
            obtain ⟨r, hr⟩ := findMatchingChunk_ok_of_name chunks nm
            dsimp only
            rw [hnm, hr]
            exact ⟨_, rfl⟩
          obtain ⟨res, hres⟩ := mapExcept_all_ok _ places0 hall
          exact ⟨res, hres, mapExcept_length _ places0 res hres⟩
    · rw [if_pos hstart]
      have hstart2 : strStarts (cleanResponseText rawText) "[" = false := by
        revert hstart
        cases strStarts (cleanResponseText rawText) "[" <;> simp
      refine ⟨fun _ => rfl, fun _ => rfl, fun _ => rfl, ?_, ?_⟩
      · intro res hres p hpmem
        have h0 : ([] : List FoundPlace) = res := by simpa using hres
        subst h0
        exact absurd hpmem (by simp)
      · intro places _ hst _ _
        exact absurd hst (by rw [hstart2]; simp)

/-- C7 witness: an empty reply yields the empty list. -/
theorem findNearbyPlaces_spec_witness :
    findNearbyPlaces "" [] (fun _ => none) = Except.ok [] :=
  (findNearbyPlaces_spec "" [] (fun _ => none)).1 (by decide)

end ScoutAI
